import Mathlib

/-!
Verification of the crawlforge-mcp repository specification.

Part A embeds the URL Safety Classifier described by the specification
(its sections 2 to 4 and 8).  The classifier implementation is not among the
source files of the repository snapshot, so the embedding is modelled from
the specification text itself; each such definition carries a doc comment
beginning with "Modelled from the spec:".

Part B embeds src/fix-inline-schemas.py: Python string replacement
(str.replace) over a fixed table of schema names, modelled on lists of
characters.

Part C embeds src/fix-tools.py: the regular expression used by
convert_tool_to_register_tool is deterministic (every repetition operator is
over a character class that excludes the literal that follows it), so the
match is embedded as a maximal-munch scanner, and re.sub as a left-to-right
scan.
-/

namespace CrawlForge

/-! ### Part A: the URL Safety Classifier, modelled from the spec -/

/-- Modelled from the spec: the fixed small vocabulary of verdict reasons
(section 3, ClassificationVerdict). -/
inductive Reason where
  | parseError
  | blockedHostname
  | privateIp
  | invalidScheme
  | safe
deriving DecidableEq, Repr

/-- Modelled from the spec: the result of evaluating one URL, a boolean
`blocked` and a `reason` (section 3). -/
structure ClassificationVerdict where
  blocked : Bool
  reason : Reason
deriving DecidableEq, Repr

/-- Modelled from the spec: a parsed IP address, v4 or v6; the family is part
of its identity (section 3).  The numeric value is the address as an
unsigned integer (32 bits for v4, 128 bits for v6). -/
inductive IPAddr where
  | v4 (value : Nat)
  | v6 (value : Nat)
deriving DecidableEq, Repr

/-- Well-formedness of a parsed address: the value fits the family width. -/
def IPAddr.wf : IPAddr → Prop
  | .v4 v => v < 2 ^ 32
  | .v6 v => v < 2 ^ 128

/-- Modelled from the spec: an immutable base address plus prefix length,
one disallowed CIDR block; the address family is part of its identity
(section 3, NetworkRange). -/
structure NetworkRange where
  isV6 : Bool
  base : Nat
  prefixLen : Nat
deriving DecidableEq, Repr

/-- Numeric value of a dotted-quad IPv4 address. -/
def mkV4 (a b c d : Nat) : Nat := ((a * 256 + b) * 256 + c) * 256 + d

/-- Modelled from the spec: CIDR membership; a range never matches an address
of the other family (section 3), and membership is agreement on the first
`prefixLen` bits (section 4.1). -/
def NetworkRange.matchesAddr (r : NetworkRange) (a : IPAddr) : Bool :=
  match a with
  | .v4 v => !r.isV6 && (v >>> (32 - r.prefixLen) == r.base >>> (32 - r.prefixLen))
  | .v6 v => r.isV6 && (v >>> (128 - r.prefixLen) == r.base >>> (128 - r.prefixLen))

/-- Modelled from the spec: the configured table of disallowed ranges
(section 4.1 lists the required minimum, which this model adopts exactly). -/
def blockedRanges : List NetworkRange :=
  [ ⟨false, mkV4 10 0 0 0, 8⟩,
    ⟨false, mkV4 172 16 0 0, 12⟩,
    ⟨false, mkV4 192 168 0 0, 16⟩,
    ⟨false, mkV4 127 0 0 0, 8⟩,
    ⟨false, mkV4 169 254 0 0, 16⟩,
    ⟨true, 1, 128⟩,
    ⟨true, 0xfc00 * 2 ^ 112, 7⟩,
    ⟨true, 0xfe80 * 2 ^ 112, 10⟩ ]

/-- Modelled from the spec: the Address-Space Matcher, `IsBlockedAddress`
(section 4.1): true iff the address falls within any configured range of the
same family. -/
def IsBlockedAddress (a : IPAddr) : Bool :=
  blockedRanges.any (fun r => r.matchesAddr a)

/-- Modelled from the spec: the literal hostname blocklist (section 3).  The
spec leaves the exact contents open (its section 8 even allows either reason
for 127.0.0.1 "depending on whether 127.0.0.1 is in the literal blocklist");
this model uses the two names every seed scenario is consistent with. -/
def hostnameBlocklist : List (List Char) :=
  ["localhost".data, "metadata.google.internal".data]

/-- Case-fold a host string (blocklist matching is case-folded, section 3). -/
def lowerStr (s : List Char) : List Char := s.map Char.toLower

/-- Split a character list at the first occurrence of `sep`, returning the
text before it and the text after it. -/
def findSplit (sep : List Char) : List Char → Option (List Char × List Char)
  | [] => none
  | c :: rest =>
    if sep.isPrefixOf (c :: rest) then
      some ([], (c :: rest).drop sep.length)
    else
      match findSplit sep rest with
      | some (pre, post) => some (c :: pre, post)
      | none => none

/-- Characters allowed in a URL scheme. -/
def isSchemeChar (c : Char) : Bool :=
  ('a' ≤ c && c ≤ 'z') || ('A' ≤ c && c ≤ 'Z') ||
  ('0' ≤ c && c ≤ '9') || c == '+' || c == '-' || c == '.'

/-- Decimal digit test. -/
def isDigitC (c : Char) : Bool := '0' ≤ c && c ≤ '9'

/-- Value of a decimal digit string. -/
def decDigitsVal (ds : List Char) : Nat :=
  ds.foldl (fun a c => a * 10 + (c.toNat - 48)) 0

/-- Hexadecimal digit test. -/
def isHexDigitC (c : Char) : Bool :=
  isDigitC c || ('a' ≤ c && c ≤ 'f') || ('A' ≤ c && c ≤ 'F')

/-- Value of a hexadecimal digit. -/
def hexDigitVal (c : Char) : Nat :=
  if isDigitC c then c.toNat - 48
  else if 'a' ≤ c && c ≤ 'f' then c.toNat - 87
  else c.toNat - 55

/-- Value of a hexadecimal digit string. -/
def hexVal (ds : List Char) : Nat :=
  ds.foldl (fun a c => a * 16 + hexDigitVal c) 0

/-- Modelled from the spec: one dotted-quad component, 0-255 in decimal. -/
def parseOctet (g : List Char) : Option Nat :=
  if g ≠ [] ∧ g.length ≤ 3 ∧ g.all isDigitC = true ∧ decDigitsVal g ≤ 255 then
    some (decDigitsVal g)
  else none

/-- Modelled from the spec: parse a host as a literal IPv4 address. -/
def parseIPv4 (h : List Char) : Option Nat :=
  match (h.splitOn '.').mapM parseOctet with
  | some [a, b, c, d] => some (mkV4 a b c d)
  | _ => none

/-- Modelled from the spec: one 16-bit hexadecimal IPv6 group. -/
def parseHexGroup (g : List Char) : Option Nat :=
  if g ≠ [] ∧ g.length ≤ 4 ∧ g.all isHexDigitC = true then some (hexVal g)
  else none

/-- Combine 16-bit groups into a 128-bit value. -/
def groupsVal (gs : List Nat) : Nat := gs.foldl (fun a g => a * 65536 + g) 0

/-- Parse a colon-separated list of hexadecimal groups. -/
def splitGroups (s : List Char) : Option (List Nat) :=
  (s.splitOn ':').mapM parseHexGroup

/-- Modelled from the spec: parse a host as a literal IPv6 address, with the
usual once-only double-colon compression. -/
def parseIPv6 (h : List Char) : Option Nat :=
  match findSplit [':', ':'] h with
  | some (pre, post) =>
    if (findSplit [':', ':'] post).isSome then none
    else do
      let lft ← if pre = [] then some [] else splitGroups pre
      let rgt ← if post = [] then some [] else splitGroups post
      if lft.length + rgt.length ≤ 7 then
        some (groupsVal (lft ++ List.replicate (8 - lft.length - rgt.length) 0 ++ rgt))
      else none
  | none =>
    match splitGroups h with
    | some gs => if gs.length = 8 then some (groupsVal gs) else none
    | none => none

/-- Drop a zone identifier from an IPv6 literal (spec section 4.2: a
bracketed literal with a zone identifier must still resolve for matching). -/
def stripZone (h : List Char) : List Char := h.takeWhile (fun c => c ≠ '%')

/-- Modelled from the spec: the scheme + host (+ optional port/path)
decomposition of a URL (section 4.2 step 1). -/
structure URLParts where
  scheme : List Char
  host : List Char
  bracketed : Bool
  portDigits : Option (List Char)
deriving DecidableEq, Repr

/-- Split off the scheme at the first "://"; the scheme must be non-empty and
made of scheme characters. -/
def schemeSplit (s : List Char) : Option (List Char × List Char) :=
  match findSplit [':', '/', '/'] s with
  | some (pre, post) =>
    if pre ≠ [] ∧ pre.all isSchemeChar = true then some (pre, post) else none
  | none => none

/-- The scheme component of a URL string, when one exists. -/
def schemeOf (s : List Char) : Option (List Char) := (schemeSplit s).map (·.1)

/-- Parse the authority (host, bracket flag, optional port digits). -/
def parseAuthority (auth : List Char) : Option (List Char × Bool × Option (List Char)) :=
  match auth with
  | '[' :: rest =>
    match findSplit [']'] rest with
    | some (inside, after) =>
      if inside = [] then none
      else
        match after with
        | [] => some (inside, true, none)
        | ':' :: p => if p.all isDigitC = true then some (inside, true, some p) else none
        | _ => none
    | none => none
  | _ =>
    let hostPart := auth.takeWhile (fun c => c ≠ ':')
    if hostPart = [] then none
    else
      match auth.dropWhile (fun c => c ≠ ':') with
      | [] => some (hostPart, false, none)
      | ':' :: p => if p.all isDigitC = true then some (hostPart, false, some p) else none
      | _ => none

/-- Modelled from the spec: parse a URL string into scheme + host
(+ optional port); the classifier needs nothing else (section 4.2 step 1). -/
def parseURL (s : List Char) : Option URLParts := do
  let (sch, rest) ← schemeSplit s
  let auth := rest.takeWhile (fun c => c ≠ '/')
  let (h, br, port) ← parseAuthority auth
  some ⟨sch, h, br, port⟩

/-- Attempt to read the host of a parsed URL as a literal IP address
(section 4.2 step 3; bracketed hosts are IPv6 literals, and a zone
identifier is stripped before matching). -/
def hostIP (u : URLParts) : Option IPAddr :=
  if u.bracketed then (parseIPv6 (stripZone u.host)).map .v6
  else
    match parseIPv4 u.host with
    | some v => some (.v4 v)
    | none => (parseIPv6 u.host).map .v6

/-- Scheme allowlist: exactly http or https, case-insensitive
(section 4.2 step 4). -/
def validScheme (u : URLParts) : Bool :=
  lowerStr u.scheme == "http".data || lowerStr u.scheme == "https".data

/-- Case-folded membership of the host in the hostname blocklist
(section 4.2 step 2). -/
def hostBlocked (u : URLParts) : Bool :=
  hostnameBlocklist.contains (lowerStr u.host)

/-- Modelled from the spec: the URL Classifier, `Classify` (section 4.2),
with the layered checks in their fixed priority order: parse, hostname
blocklist, IP-literal range match, scheme check, default-safe. -/
def Classify (s : String) : ClassificationVerdict :=
  match parseURL s.data with
  | none => ⟨true, .parseError⟩
  | some u =>
    if hostBlocked u then ⟨true, .blockedHostname⟩
    else
      match hostIP u with
      | some a =>
        if IsBlockedAddress a then ⟨true, .privateIp⟩
        else if validScheme u then ⟨false, .safe⟩
        else ⟨true, .invalidScheme⟩
      | none =>
        if validScheme u then ⟨false, .safe⟩
        else ⟨true, .invalidScheme⟩

/-- The five classification rules of spec section 4.2, as names. -/
inductive Rule where
  | parseErr
  | blockedHost
  | privateAddr
  | badScheme
  | ok
deriving DecidableEq, Repr

/-- The verdict each rule produces when it fires. -/
def Rule.verdict : Rule → ClassificationVerdict
  | .parseErr => ⟨true, .parseError⟩
  | .blockedHost => ⟨true, .blockedHostname⟩
  | .privateAddr => ⟨true, .privateIp⟩
  | .badScheme => ⟨true, .invalidScheme⟩
  | .ok => ⟨false, .safe⟩

/-- Modelled from the spec: the rule system of section 4.2 as a relation.
A rule fires only when every earlier rule in the fixed priority order
(parse, hostname blocklist, IP-literal range match, scheme check,
default-safe) does not apply, which is exactly the "first match wins,
evaluated top to bottom" reading of the spec. -/
inductive Fires : String → Rule → Prop where
  | parseErr (s : String) :
      parseURL s.data = none → Fires s .parseErr
  | blockedHost (s : String) (u : URLParts) :
      parseURL s.data = some u → hostBlocked u = true → Fires s .blockedHost
  | privateAddr (s : String) (u : URLParts) (a : IPAddr) :
      parseURL s.data = some u → hostBlocked u = false →
      hostIP u = some a → IsBlockedAddress a = true → Fires s .privateAddr
  | badScheme (s : String) (u : URLParts) :
      parseURL s.data = some u → hostBlocked u = false →
      (∀ a, hostIP u = some a → IsBlockedAddress a = false) →
      validScheme u = false → Fires s .badScheme
  | ok (s : String) (u : URLParts) :
      parseURL s.data = some u → hostBlocked u = false →
      (∀ a, hostIP u = some a → IsBlockedAddress a = false) →
      validScheme u = true → Fires s .ok

/-- The rule Classify acts on, read off the same decision chain. -/
def ruleOf (s : String) : Rule :=
  match parseURL s.data with
  | none => .parseErr
  | some u =>
    if hostBlocked u then .blockedHost
    else
      match hostIP u with
      | some a =>
        if IsBlockedAddress a then .privateAddr
        else if validScheme u then .ok
        else .badScheme
      | none =>
        if validScheme u then .ok
        else .badScheme


/-! ### Part B: src/fix-inline-schemas.py -/

/-- Python str.replace(old, new) for a non-empty pattern, as the script
applies it (content.replace at line 71): scan left to right; where `old` is
a prefix, emit `new` and skip past the match; otherwise keep one character.
For an empty pattern this embedding keeps the string unchanged (the script
only ever uses the nine non-empty patterns below). -/
def pyReplace (old new : List Char) : List Char → List Char
  | [] => []
  | c :: rest =>
    if h : old ≠ [] ∧ old.isPrefixOf (c :: rest) then
      new ++ pyReplace old new ((c :: rest).drop old.length)
    else
      c :: pyReplace old new rest
termination_by s => s.length
decreasing_by
  · simp only [List.length_drop, List.length_cons]
    have hle : old.length ≤ (c :: rest).length :=
      ( List.isPrefixOf_iff_prefix.mp h.2).length_le
    have hlen : 0 < old.length := List.length_pos.mpr h.1
    simp only [List.length_cons] at hle
    omega
  · simp

/-- The maximal non-matching segments of a string under the same
left-to-right non-overlapping scan. -/
def segs (old : List Char) : List Char → List (List Char)
  | [] => [[]]
  | c :: rest =>
    if h : old ≠ [] ∧ old.isPrefixOf (c :: rest) then
      [] :: segs old ((c :: rest).drop old.length)
    else
      match segs old rest with
      | [] => [[c]]
      | t :: ts => (c :: t) :: ts
termination_by s => s.length
decreasing_by
  · simp only [List.length_drop, List.length_cons]
    have hle : old.length ≤ (c :: rest).length :=
      ( List.isPrefixOf_iff_prefix.mp h.2).length_le
    have hlen : 0 < old.length := List.length_pos.mpr h.1
    simp only [List.length_cons] at hle
    omega
  · simp

/-- Interleave a separator between segments. -/
def joinSep (sep : List Char) : List (List Char) → List Char
  | [] => []
  | [t] => t
  | t :: ts => t ++ sep ++ joinSep sep ts

/-- The schema_replacements table of src/fix-inline-schemas.py, in its
insertion order, with the exact triple-quoted inline definitions. -/
def schemaReplacements : List (List Char × List Char) :=
  [
    ("ExtractMetadataSchema".data, "\x7b\n    url: z.string().url()\n  \x7d".data),
    ("ScrapeStructuredSchema".data, "\x7b\n    url: z.string().url(),\n    selectors: z.record(z.string())\n  \x7d".data),
    ("SearchWebSchema".data, "\x7b\n      query: z.string(),\n      limit: z.number().min(1).max(100).optional(),\n      offset: z.number().min(0).optional(),\n      lang: z.string().optional(),\n      safe_search: z.boolean().optional(),\n      time_range: z.enum([\x27day\x27, \x27week\x27, \x27month\x27, \x27year\x27, \x27all\x27]).optional(),\n      site: z.string().optional(),\n      file_type: z.string().optional()\n    \x7d".data),
    ("CrawlDeepSchema".data, "\x7b\n    url: z.string().url(),\n    max_depth: z.number().min(1).max(5).optional(),\n    max_pages: z.number().min(1).max(1000).optional(),\n    include_patterns: z.array(z.string()).optional(),\n    exclude_patterns: z.array(z.string()).optional(),\n    follow_external: z.boolean().optional(),\n    respect_robots: z.boolean().optional(),\n    extract_content: z.boolean().optional(),\n    concurrency: z.number().min(1).max(20).optional()\n  \x7d".data),
    ("MapSiteSchema".data, "\x7b\n    url: z.string().url(),\n    include_sitemap: z.boolean().optional(),\n    max_urls: z.number().min(1).max(10000).optional(),\n    group_by_path: z.boolean().optional(),\n    include_metadata: z.boolean().optional()\n  \x7d".data),
    ("ExtractContentSchema".data, "\x7b\n    url: z.string().url(),\n    options: z.object(\x7b\x7d).optional()\n  \x7d".data),
    ("ProcessDocumentSchema".data, "\x7b\n    source: z.string(),\n    sourceType: z.enum([\x27url\x27, \x27pdf_url\x27, \x27file\x27, \x27pdf_file\x27]).optional(),\n    options: z.object(\x7b\x7d).optional()\n  \x7d".data),
    ("SummarizeContentSchema".data, "\x7b\n    text: z.string(),\n    options: z.object(\x7b\x7d).optional()\n  \x7d".data),
    ("AnalyzeContentSchema".data, "\x7b\n    text: z.string(),\n    options: z.object(\x7b\x7d).optional()\n  \x7d".data) ]

/-- The pattern string the script builds for one table entry
(f-string at line 72). -/
def patOf (p : List Char × List Char) : List Char := "inputSchema: ".data ++ p.1

/-- The replacement string the script builds for one table entry
(f-string at line 73). -/
def repOf (p : List Char × List Char) : List Char := "inputSchema: ".data ++ p.2

/-- The whole replacement loop of fix-inline-schemas.py (lines 70-74). -/
def fixContent (c : List Char) : List Char :=
  schemaReplacements.foldl (fun acc p => pyReplace (patOf p) (repOf p) acc) c

/-- File-system and console effects of a script run. -/
inductive FileOp where
  | readF (path : String)
  | writeF (path : String) (content : List Char)
  | printLn (msg : String)
deriving DecidableEq, Repr

/-- The whole of fix-inline-schemas.py: read server.js, run the replacement
loop, write the result back, print the confirmation. -/
def fixInlineSchemasRun (serverJs : List Char) : List FileOp :=
  [FileOp.readF "server.js",
   FileOp.writeF "server.js" (fixContent serverJs),
   FileOp.printLn "Fixed all schema references to use inline definitions"]

/-! ### Part C: src/fix-tools.py -/

/-- Expect a literal at the head of the input; on success return the rest. -/
def expectLit (lit : List Char) (s : List Char) : Option (List Char) :=
  if lit.isPrefixOf s then some (s.drop lit.length) else none

/-- One-or-more characters of a class, greedily (in the source regex every
class excludes the character that follows it, so maximal munch is the only
possible match). -/
def takeCl1 (p : Char → Bool) (s : List Char) : Option (List Char × List Char) :=
  if s.takeWhile p = [] then none else some (s.takeWhile p, s.dropWhile p)

/-- Zero-or-more characters of a class, greedily. -/
def takeCl0 (p : Char → Bool) (s : List Char) : List Char × List Char :=
  (s.takeWhile p, s.dropWhile p)

/-- Python regex whitespace for a str pattern compiled without re.ASCII
(as fix-tools.py compiles its pattern): the full Unicode whitespace set of
CPython, namely the 29 code points whose category is Zs or whose
bidirectional class is WS, B or S. -/
def isSpaceC (c : Char) : Bool :=
  [0x9, 0xA, 0xB, 0xC, 0xD, 0x1C, 0x1D, 0x1E, 0x1F, 0x20, 0x85, 0xA0,
   0x1680, 0x2000, 0x2001, 0x2002, 0x2003, 0x2004, 0x2005, 0x2006, 0x2007,
   0x2008, 0x2009, 0x200A, 0x2028, 0x2029, 0x202F, 0x205F, 0x3000].contains
    c.toNat

/-- Greedy whitespace skip. -/
def skipWs (s : List Char) : List Char := s.dropWhile isSpaceC

/-- The four capture groups of the tool pattern plus the input remaining
after the match. -/
structure ToolMatch where
  toolName : List Char
  descr : List Char
  oldSchema : List Char
  params : List Char
  rest : List Char
deriving DecidableEq, Repr

/-- The tool pattern of fix-tools.py after its initial literal:
the regex tail consisting of the quoted name, the quoted description,
the braced schema, and the async parameter head. -/
def matchToolTail (s : List Char) : Option ToolMatch :=
  match expectLit "\"".data (skipWs s) with
  | none => none
  | some s1 =>
  match takeCl1 (fun c => c != '\"') s1 with
  | none => none
  | some (g1, s2) =>
  match expectLit "\",".data s2 with
  | none => none
  | some s3 =>
  match expectLit "\"".data (skipWs s3) with
  | none => none
  | some s5 =>
  match takeCl1 (fun c => c != '\"') s5 with
  | none => none
  | some (g2, s6) =>
  match expectLit "\",".data s6 with
  | none => none
  | some s7 =>
  match expectLit "\x7b".data (skipWs s7) with
  | none => none
  | some s9 =>
  match takeCl1 (fun c => c != '}') s9 with
  | none => none
  | some (g3, s10) =>
  match expectLit "\x7d,".data s10 with
  | none => none
  | some s11 =>
  match expectLit "async".data (skipWs s11) with
  | none => none
  | some s13 =>
  match expectLit "(".data (skipWs s13) with
  | none => none
  | some s15 =>
  match expectLit ")".data (takeCl0 (fun c => c != ')') s15).2 with
  | none => none
  | some s17 =>
  match expectLit "=>".data (skipWs s17) with
  | none => none
  | some s19 =>
  match expectLit "\x7b".data (skipWs s19) with
  | none => none
  | some s21 =>
  some ⟨g1, g2, g3, (takeCl0 (fun c => c != ')') s15).1, s21⟩

/-- The full tool pattern of fix-tools.py at the current position.  Every
repetition of the source regex ranges over a character class that excludes
the literal that follows it, so the pattern has at most one match at a
position: the maximal-munch one implemented here. -/
def matchToolAt (s : List Char) : Option ToolMatch :=
  match expectLit "server.tool(".data s with
  | none => none
  | some s1 => matchToolTail s1

/-- convert_schema_format from fix-tools.py: returns the constant TODO
placeholder, ignoring the old schema (exactly as the source does). -/
def convert_schema_format (old_schema : List Char) : List Char :=
  "    // TODO: Define proper Zod schemas here".data

/-- convert_params_format from fix-tools.py: returns the constant TODO
placeholder, ignoring the parameters and the schema (exactly as the source
does). -/
def convert_params_format (params schema : List Char) : List Char :=
  "/* TODO: Add destructured parameters */".data

/-- replace_tool from fix-tools.py: the registerTool text built from the
captured groups. -/
def replace_tool (tool_name description old_schema params : List Char) : List Char :=
  "server.registerTool(\"".data ++ tool_name ++
  "\", \x7b\n  description: \"".data ++ description ++
  "\",\n  inputSchema: \x7b\n".data ++ convert_schema_format old_schema ++
  "\n  \x7d\n\x7d, async (".data ++ convert_params_format params old_schema ++
  ") => \x7b".data

/-- re.sub of the tool pattern over the whole input, with explicit fuel
(one unit per scan position; the wrapper below supplies enough): scan left
to right, replace each match and continue after it, keep all other
characters. -/
def convertToolFuel : Nat → List Char → List Char
  | _, [] => []
  | 0, c :: rest => c :: rest
  | fuel + 1, c :: rest =>
    match matchToolAt (c :: rest) with
    | some m =>
      replace_tool m.toolName m.descr m.oldSchema m.params ++
        convertToolFuel fuel m.rest
    | none => c :: convertToolFuel fuel rest

/-- convert_tool_to_register_tool from fix-tools.py. -/
def convert_tool_to_register_tool (s : List Char) : List Char :=
  convertToolFuel s.length s

/-- Does any position of the input start a tool-pattern match? -/
def hasToolMatch : List Char → Bool
  | [] => false
  | c :: rest => (matchToolAt (c :: rest)).isSome || hasToolMatch rest

/-- The usage line printed by fix-tools.py. -/
def usageMsg : String := "Usage: python3 fix-tools.py <server.js>"

/-- The top level of fix-tools.py: with exactly one file argument, read,
convert, write, report; otherwise print the usage line and exit with
status 1 before touching any file.  The per-match progress prints inside
re.sub are not traced. -/
def fixToolsMain (argv : List String) (fileContent : List Char) :
    Nat × List FileOp :=
  match argv with
  | [_, fp] =>
    (0, [FileOp.readF fp,
         FileOp.writeF fp (convert_tool_to_register_tool fileContent),
         FileOp.printLn "Tool conversion completed!"])
  | _ => (1, [FileOp.printLn usageMsg])

/-! ### Theorems about the classifier -/

theorem classify_eq_ruleOf (s : String) : Classify s = (ruleOf s).verdict := by
  unfold Classify ruleOf
  cases hp : parseURL s.data with
  | none => rfl
  | some u =>
    cases hb : hostBlocked u with
    | true => simp [hb, Rule.verdict]
    | false =>
      cases hi : hostIP u with
      | some a =>
        cases hba : IsBlockedAddress a with
        | true => simp [hb, hi, hba, Rule.verdict]
        | false => cases hv : validScheme u <;> simp [hb, hi, hba, hv, Rule.verdict]
      | none => cases hv : validScheme u <;> simp [hb, hi, hv, Rule.verdict]

theorem fires_ruleOf (s : String) : Fires s (ruleOf s) := by
  unfold ruleOf
  cases hp : parseURL s.data with
  | none => exact .parseErr s hp
  | some u =>
    cases hb : hostBlocked u with
    | true => simpa [hb] using Fires.blockedHost s u hp hb
    | false =>
      cases hi : hostIP u with
      | some a =>
        cases hba : IsBlockedAddress a with
        | true => simpa [hb, hi, hba] using Fires.privateAddr s u a hp hb hi hba
        | false =>
          have hall : ∀ b, hostIP u = some b → IsBlockedAddress b = false := by
            intro b hbEq
            rw [hi] at hbEq
            cases hbEq
            exact hba
          cases hv : validScheme u with
          | true => simpa [hb, hi, hba, hv] using Fires.ok s u hp hb hall hv
          | false => simpa [hb, hi, hba, hv] using Fires.badScheme s u hp hb hall hv
      | none =>
        have hall : ∀ b, hostIP u = some b → IsBlockedAddress b = false := by
          intro b hbEq
          rw [hi] at hbEq
          cases hbEq
        cases hv : validScheme u with
        | true => simpa [hb, hi, hv] using Fires.ok s u hp hb hall hv
        | false => simpa [hb, hi, hv] using Fires.badScheme s u hp hb hall hv

theorem fires_sound {s : String} {r : Rule} (h : Fires s r) : ruleOf s = r := by
  cases h with
  | parseErr hp => simp [ruleOf, hp]
  | blockedHost u hp hb => simp [ruleOf, hp, hb]
  | privateAddr u a hp hb hi hba => simp [ruleOf, hp, hb, hi, hba]
  | badScheme u hp hb hall hv =>
    unfold ruleOf
    rw [hp]
    simp only [hb, Bool.false_eq_true, if_false]
    cases hi : hostIP u with
    | some a => simp [hall a hi, hv]
    | none => simp [hv]
  | ok u hp hb hall hv =>
    unfold ruleOf
    rw [hp]
    simp only [hb, Bool.false_eq_true, if_false]
    cases hi : hostIP u with
    | some a => simp [hall a hi, hv]
    | none => simp [hv]

theorem fires_iff {s : String} {r : Rule} : Fires s r ↔ ruleOf s = r :=
  ⟨fires_sound, fun h => h ▸ fires_ruleOf s⟩

theorem fires_det {s : String} {r r' : Rule} (h : Fires s r) (h' : Fires s r') :
    r = r' := (fires_sound h).symm.trans (fires_sound h')

theorem parseURL_none {s : List Char} (h : schemeOf s = none) : parseURL s = none := by
  have hs : schemeSplit s = none := by
    cases hq : schemeSplit s with
    | none => rfl
    | some p => unfold schemeOf at h; rw [hq] at h; cases h
  simp [parseURL, hs]

/-- C1: for every URL string, the classifier evaluates its rules in the
fixed priority order parse, hostname blocklist, IP-literal range match,
scheme check, default-safe; exactly one rule fires, the firing rule alone
determines the verdict, and a URL whose parsed host is on the hostname
blocklist is reported blocked-hostname regardless of its address or
scheme. -/
theorem C1_priority_order (s : String) :
    (∃! r : Rule, Fires s r) ∧
    (∀ r : Rule, Fires s r → Classify s = r.verdict) ∧
    (∀ u : URLParts, parseURL s.data = some u → hostBlocked u = true →
      Classify s = ⟨true, Reason.blockedHostname⟩) := by
  refine ⟨⟨ruleOf s, fires_ruleOf s, fun r hr => (fires_sound hr).symm⟩, ?_, ?_⟩
  · intro r hr
    rw [classify_eq_ruleOf, fires_sound hr]
  · intro u hp hb
    rw [classify_eq_ruleOf, fires_sound (Fires.blockedHost s u hp hb)]
    rfl

/-- Witness for C1: ftp://localhost/ has a blocklisted host and an invalid
scheme, and the hostname blocklist rule wins. -/
theorem C1_priority_order_witness :
    Classify "ftp://localhost/" = ⟨true, Reason.blockedHostname⟩ :=
  (C1_priority_order "ftp://localhost/").2.2
    ⟨"ftp".data, "localhost".data, false, none⟩ (by decide) (by decide)

/-- C2: for every input string a rule fires and yields the returned verdict
(the classifier is total and never fails the call), and whenever the string
cannot be parsed into scheme plus host the verdict is blocked with reason
parse-error. -/
theorem C2_total_parse_error (s : String) :
    (∃ r : Rule, Fires s r ∧ Classify s = r.verdict) ∧
    (parseURL s.data = none → Classify s = ⟨true, Reason.parseError⟩) := by
  refine ⟨⟨ruleOf s, fires_ruleOf s, classify_eq_ruleOf s⟩, ?_⟩
  intro hp
  rw [classify_eq_ruleOf, fires_sound (Fires.parseErr s hp)]
  rfl

/-- Witness for C2: the empty string degrades to parse-error. -/
theorem C2_total_parse_error_witness :
    Classify "" = ⟨true, Reason.parseError⟩ :=
  (C2_total_parse_error "").2 (by decide)

/-- C3: IsBlockedAddress is true iff the address falls within some configured
range of the same family, a range never matches an address of the other
family, and the configured table contains the eight ranges the spec
requires. -/
theorem C3_address_matcher (a : IPAddr) :
    (IsBlockedAddress a = true ↔ ∃ r ∈ blockedRanges, r.matchesAddr a = true) ∧
    (∀ (r : NetworkRange) (v : Nat),
      (r.isV6 = true → r.matchesAddr (.v4 v) = false) ∧
      (r.isV6 = false → r.matchesAddr (.v6 v) = false)) ∧
    ((⟨false, mkV4 10 0 0 0, 8⟩ : NetworkRange) ∈ blockedRanges ∧
     (⟨false, mkV4 172 16 0 0, 12⟩ : NetworkRange) ∈ blockedRanges ∧
     (⟨false, mkV4 192 168 0 0, 16⟩ : NetworkRange) ∈ blockedRanges ∧
     (⟨false, mkV4 127 0 0 0, 8⟩ : NetworkRange) ∈ blockedRanges ∧
     (⟨false, mkV4 169 254 0 0, 16⟩ : NetworkRange) ∈ blockedRanges ∧
     (⟨true, 1, 128⟩ : NetworkRange) ∈ blockedRanges ∧
     (⟨true, 0xfc00 * 2 ^ 112, 7⟩ : NetworkRange) ∈ blockedRanges ∧
     (⟨true, 0xfe80 * 2 ^ 112, 10⟩ : NetworkRange) ∈ blockedRanges) := by
  refine ⟨List.any_eq_true, ?_, by decide⟩
  intro r v
  constructor <;> intro h <;> simp [NetworkRange.matchesAddr, h]

/-- Witness for C3: the matcher's characterisation at 10.1.2.3, and the
IPv6 loopback range rejecting a v4 address. -/
theorem C3_address_matcher_witness :
    (IsBlockedAddress (.v4 (mkV4 10 1 2 3)) = true ↔
      ∃ r ∈ blockedRanges, r.matchesAddr (.v4 (mkV4 10 1 2 3)) = true) ∧
    NetworkRange.matchesAddr ⟨true, 1, 128⟩ (.v4 5) = false :=
  ⟨(C3_address_matcher (.v4 (mkV4 10 1 2 3))).1,
   ((C3_address_matcher (.v4 5)).2.1 ⟨true, 1, 128⟩ 5).1 rfl⟩

/-- C4: the four seed scenarios of the spec classify exactly as stated. -/
theorem C4_seed_scenarios :
    Classify "http://localhost/" = ⟨true, Reason.blockedHostname⟩ ∧
    Classify "http://169.254.169.254/" = ⟨true, Reason.privateIp⟩ ∧
    Classify "https://example.com/" = ⟨false, Reason.safe⟩ ∧
    Classify "ftp://example.com/" = ⟨true, Reason.invalidScheme⟩ :=
  ⟨by decide, by decide, by decide, by decide⟩

/-- C5: classification is deterministic: any two rules that fire for the
same input string coincide, and the verdict returned by Classify is the one
of the firing rule, so identical input strings always yield identical
verdicts. -/
theorem C5_deterministic (s : String) (r r' : Rule)
    (h : Fires s r) (h' : Fires s r') :
    r = r' ∧ Classify s = r.verdict :=
  ⟨fires_det h h', by rw [classify_eq_ruleOf, fires_sound h]⟩

/-- Witness for C5: two derivations on the same garbage input agree. -/
theorem C5_deterministic_witness :
    Rule.parseErr = Rule.parseErr ∧ Classify "garbage" = Rule.parseErr.verdict :=
  C5_deterministic "garbage" .parseErr .parseErr
    (Fires.parseErr _ (by decide)) (Fires.parseErr _ (by decide))

/-- C6: an input whose parse yields no scheme at all classifies as
parse-error, never as invalid-scheme. -/
theorem C6_no_scheme (s : String) (h : schemeOf s.data = none) :
    Classify s = ⟨true, Reason.parseError⟩ ∧
    (Classify s).reason ≠ Reason.invalidScheme := by
  have hp : parseURL s.data = none := parseURL_none h
  have hc : Classify s = ⟨true, Reason.parseError⟩ := by
    rw [classify_eq_ruleOf, fires_sound (Fires.parseErr s hp)]
    rfl
  exact ⟨hc, by rw [hc]; decide⟩

/-- Witness for C6: a bare hostname with no scheme is a parse error. -/
theorem C6_no_scheme_witness :
    Classify "example.com" = ⟨true, Reason.parseError⟩ ∧
    (Classify "example.com").reason ≠ Reason.invalidScheme :=
  C6_no_scheme "example.com" (by decide)


/-! ### Theorems about the rewrite scripts -/

theorem pyReplace_nil (old new : List Char) : pyReplace old new [] = [] := by
  unfold pyReplace
  rfl

theorem pyReplace_cons_pos {old : List Char} (new : List Char) {c : Char} {rest : List Char}
    (h1 : old ≠ []) (h2 : old.isPrefixOf (c :: rest)) :
    pyReplace old new (c :: rest) =
      new ++ pyReplace old new ((c :: rest).drop old.length) := by
  conv_lhs => rw [pyReplace]
  rw [dif_pos ⟨h1, h2⟩]

theorem pyReplace_cons_neg {old : List Char} (new : List Char) {c : Char} {rest : List Char}
    (h : ¬(old ≠ [] ∧ old.isPrefixOf (c :: rest))) :
    pyReplace old new (c :: rest) = c :: pyReplace old new rest := by
  conv_lhs => rw [pyReplace]
  rw [dif_neg h]

theorem segs_nil (old : List Char) : segs old [] = [[]] := by
  unfold segs
  rfl

theorem segs_cons_pos {old : List Char} {c : Char} {rest : List Char}
    (h1 : old ≠ []) (h2 : old.isPrefixOf (c :: rest)) :
    segs old (c :: rest) = [] :: segs old ((c :: rest).drop old.length) := by
  conv_lhs => rw [segs]
  rw [dif_pos ⟨h1, h2⟩]

theorem segs_cons_neg {old : List Char} {c : Char} {rest t : List Char}
    {ts : List (List Char)}
    (h : ¬(old ≠ [] ∧ old.isPrefixOf (c :: rest)))
    (hs : segs old rest = t :: ts) :
    segs old (c :: rest) = (c :: t) :: ts := by
  conv_lhs => rw [segs]
  rw [dif_neg h, hs]

theorem length_strong_ind {P : List Char → Prop}
    (H : ∀ s : List Char, (∀ t : List Char, t.length < s.length → P t) → P s) :
    ∀ s, P s := by
  intro s
  have key : ∀ n (s : List Char), s.length ≤ n → P s := by
    intro n
    induction n with
    | zero =>
      intro s hs
      apply H
      intro t ht
      omega
    | succ n ih =>
      intro s hs
      apply H
      intro t ht
      exact ih t (by omega)
  exact key s.length s (le_refl _)

theorem joinSep_pair (sep t : List Char) (t2 : List Char) (ts : List (List Char)) :
    joinSep sep (t :: t2 :: ts) = t ++ sep ++ joinSep sep (t2 :: ts) := rfl

theorem joinSep_single (sep t : List Char) : joinSep sep [t] = t := rfl

theorem segs_ne_nil (old : List Char) : ∀ s : List Char, segs old s ≠ [] := by
  apply length_strong_ind
  intro s ih
  cases s with
  | nil => rw [segs_nil]; simp
  | cons c rest =>
    by_cases h : old ≠ [] ∧ old.isPrefixOf (c :: rest)
    · rw [segs_cons_pos h.1 h.2]; simp
    · cases hs : segs old rest with
      | nil => exact absurd hs (ih rest (by simp))
      | cons t ts => rw [segs_cons_neg h hs]; simp

theorem segs_cons_of_ne_nil (old : List Char) (s : List Char) :
    ∃ t ts, segs old s = t :: ts := by
  cases hq : segs old s with
  | nil => exact absurd hq (segs_ne_nil old s)
  | cons t ts => exact ⟨t, ts, rfl⟩

/-- The first segment is a prefix of the input. -/
theorem segs_head_pre (old : List Char) :
    ∀ s : List Char, ∃ t ts, segs old s = t :: ts ∧ t <+: s := by
  apply length_strong_ind
  intro s ih
  cases s with
  | nil => exact ⟨[], [], segs_nil old, List.nil_prefix⟩
  | cons c rest =>
    by_cases h : old ≠ [] ∧ old.isPrefixOf (c :: rest)
    · exact ⟨[], _, segs_cons_pos h.1 h.2, List.nil_prefix⟩
    · obtain ⟨t, ts, hs, hpre⟩ := ih rest (by simp)
      exact ⟨c :: t, ts, segs_cons_neg h hs, List.cons_prefix_cons.mpr ⟨rfl, hpre⟩⟩

theorem drop_length_lt {old : List Char} {c : Char} {rest : List Char}
    (h1 : old ≠ []) :
    ((c :: rest).drop old.length).length < (c :: rest).length := by
  have h2 : 0 < old.length := List.length_pos.mpr h1
  simp only [List.length_drop, List.length_cons]
  omega

/-- Joining the segments with the pattern itself restores the input. -/
theorem joinSep_segs (old : List Char) :
    ∀ s : List Char, joinSep old (segs old s) = s := by
  apply length_strong_ind
  intro s ih
  cases s with
  | nil => rw [segs_nil]; rfl
  | cons c rest =>
    by_cases h : old ≠ [] ∧ old.isPrefixOf (c :: rest)
    · obtain ⟨t2, ts2, hts⟩ := segs_cons_of_ne_nil old ((c :: rest).drop old.length)
      rw [segs_cons_pos h.1 h.2, hts]
      have hIH := ih _ (drop_length_lt h.1)
      rw [hts] at hIH
      rw [joinSep_pair, hIH]
      obtain ⟨w, hw⟩ := List.isPrefixOf_iff_prefix.mp h.2
      rw [← hw, List.nil_append, List.drop_left]
    · obtain ⟨t, ts, hs⟩ := segs_cons_of_ne_nil old rest
      rw [segs_cons_neg h hs]
      have hIH := ih rest (by simp)
      rw [hs] at hIH
      cases ts with
      | nil =>
        rw [joinSep_single]
        rw [joinSep_single] at hIH
        rw [hIH]
      | cons t2 ts2 =>
        rw [joinSep_pair]
        rw [joinSep_pair] at hIH
        rw [← hIH]
        simp

/-- pyReplace is joining the segments with the replacement. -/
theorem pyReplace_eq_joinSep (old new : List Char) :
    ∀ s : List Char, pyReplace old new s = joinSep new (segs old s) := by
  apply length_strong_ind
  intro s ih
  cases s with
  | nil => rw [segs_nil, pyReplace_nil]; rfl
  | cons c rest =>
    by_cases h : old ≠ [] ∧ old.isPrefixOf (c :: rest)
    · obtain ⟨t2, ts2, hts⟩ := segs_cons_of_ne_nil old ((c :: rest).drop old.length)
      rw [segs_cons_pos h.1 h.2, hts, pyReplace_cons_pos new h.1 h.2]
      have hIH := ih _ (drop_length_lt h.1)
      rw [hts] at hIH
      rw [joinSep_pair, hIH, List.nil_append]
    · obtain ⟨t, ts, hs⟩ := segs_cons_of_ne_nil old rest
      rw [segs_cons_neg h hs, pyReplace_cons_neg new h]
      have hIH := ih rest (by simp)
      rw [hs] at hIH
      cases ts with
      | nil =>
        rw [joinSep_single]
        rw [joinSep_single] at hIH
        rw [hIH]
      | cons t2 ts2 =>
        rw [joinSep_pair]
        rw [joinSep_pair] at hIH
        rw [hIH]
        simp

/-- No segment contains an occurrence of the pattern. -/
theorem segs_no_occ {old : List Char} (h1 : old ≠ []) :
    ∀ s : List Char, ∀ t ∈ segs old s, ¬ old <:+: t := by
  apply length_strong_ind
  intro s ih
  cases s with
  | nil =>
    intro t ht
    rw [segs_nil] at ht
    simp only [List.mem_singleton] at ht
    subst ht
    simp [List.infix_nil, h1]
  | cons c rest =>
    intro t ht
    by_cases h : old ≠ [] ∧ old.isPrefixOf (c :: rest)
    · rw [segs_cons_pos h.1 h.2] at ht
      rcases List.mem_cons.mp ht with rfl | htail
      · simp [List.infix_nil, h1]
      · exact ih _ (drop_length_lt h1) t htail
    · obtain ⟨t0, ts, hs⟩ := segs_cons_of_ne_nil old rest
      rw [segs_cons_neg h hs] at ht
      rcases List.mem_cons.mp ht with rfl | htail
      · -- t = c :: t0
        intro hocc
        obtain ⟨u, v, huv⟩ := hocc
        cases u with
        | nil =>
          -- old is a prefix of c :: t0, and c :: t0 is a prefix of c :: rest
          have hpre0 : old <+: c :: t0 := ⟨v, by simpa using huv⟩
          obtain ⟨t0h, tsh, hsh, hpreh⟩ := segs_head_pre old rest
          rw [hs] at hsh
          injection hsh with e1 e2
          subst e1
          have hcons : c :: t0 <+: c :: rest := List.cons_prefix_cons.mpr ⟨rfl, hpreh⟩
          exact h ⟨h1, List.isPrefixOf_iff_prefix.mpr (hpre0.trans hcons)⟩
        | cons u0 u' =>
          have : old <:+: t0 := by
            injection huv with e1 e2
            exact ⟨u', v, e2⟩
          exact ih rest (by simp) t0
            (by rw [hs]; exact List.mem_cons_self _ _) this
      · exact ih rest (by simp) t
          (by rw [hs]; exact List.mem_cons_of_mem _ htail)



/-- A member of a joined list is an infix of the join. -/
theorem mem_joinSep_inf (sep : List Char) :
    ∀ (ts : List (List Char)) (t : List Char), t ∈ ts → t <:+: joinSep sep ts := by
  intro ts
  induction ts with
  | nil => intro t ht; cases ht
  | cons t0 ts ih =>
    intro t ht
    rcases List.mem_cons.mp ht with rfl | htail
    · cases ts with
      | nil => exact List.infix_rfl
      | cons t2 ts2 =>
        rw [joinSep_pair, List.append_assoc]
        exact ⟨[], sep ++ joinSep sep (t2 :: ts2), rfl⟩
    · cases ts with
      | nil => cases htail
      | cons t2 ts2 =>
        rw [joinSep_pair, List.append_assoc]
        have hin := ih t htail
        exact List.IsInfix.trans hin ⟨t0 ++ sep, [], by simp⟩

/-- Every segment is an infix of the input. -/
theorem segs_inf (old : List Char) (s : List Char) :
    ∀ t ∈ segs old s, t <:+: s := by
  intro t ht
  have h := mem_joinSep_inf old (segs old s) t ht
  rwa [joinSep_segs old s] at h

/-- A string without an occurrence of the pattern is unchanged. -/
theorem pyReplace_id {old : List Char} (new : List Char) :
    ∀ s : List Char, ¬ old <:+: s → pyReplace old new s = s := by
  apply length_strong_ind (P := fun s => ¬ old <:+: s → pyReplace old new s = s)
  intro s ih hfree
  cases s with
  | nil => exact pyReplace_nil old new
  | cons c rest =>
    have hnp : ¬ (old ≠ [] ∧ old.isPrefixOf (c :: rest)) := by
      rintro ⟨-, hp⟩
      exact hfree (List.IsPrefix.isInfix ( List.isPrefixOf_iff_prefix.mp hp))
    rw [pyReplace_cons_neg new hnp]
    rw [ih rest (by simp) (fun hocc => hfree ( List.infix_cons hocc))]

theorem prefix_of_append_le {x a b : List Char} (h : x <+: a ++ b)
    (hlen : x.length ≤ a.length) : x <+: a :=
  List.prefix_of_prefix_length_le h ( List.prefix_append a b) hlen

theorem suffix_of_append_le {x a b : List Char} (h : x <:+ a ++ b)
    (hlen : x.length ≤ b.length) : x <:+ b :=
  List.suffix_of_suffix_length_le h ( List.suffix_append a b) hlen

/-- An occurrence in an append is in the left part, in the right part, or
spans the boundary. -/
theorem infix_append_split {q a b : List Char} (h : q <:+: a ++ b) :
    q <:+: a ∨ q <:+: b ∨
      ∃ k, 0 < k ∧ k < q.length ∧ q.take k <:+ a ∧ q.drop k <+: b := by
  obtain ⟨u, v, huv⟩ := h
  have hlen : u.length + (q.length + v.length) = a.length + b.length := by
    have h2 := congrArg List.length huv
    simpa [List.length_append] using h2
  by_cases h1 : u.length + q.length ≤ a.length
  · left
    have hpre : u ++ q <+: a ++ b := ⟨v, by simpa [List.append_assoc] using huv⟩
    have hpre2 : u ++ q <+: a :=
      prefix_of_append_le hpre (by simpa [List.length_append] using h1)
    obtain ⟨w, hw⟩ := hpre2
    exact ⟨u, w, by simpa [List.append_assoc] using hw⟩
  · by_cases h2 : a.length ≤ u.length
    · right; left
      have hsuf : q ++ v <:+ a ++ b := ⟨u, by simpa [List.append_assoc] using huv⟩
      have hsuf2 : q ++ v <:+ b :=
        suffix_of_append_le hsuf (by simp only [List.length_append]; omega)
      obtain ⟨w, hw⟩ := hsuf2
      exact ⟨w, v, by simpa [List.append_assoc] using hw⟩
    · right; right
      push_neg at h1 h2
      refine ⟨a.length - u.length, by omega, by omega, ?_, ?_⟩
      · refine ⟨u, ?_⟩
        have htk := congrArg (List.take a.length) huv
        rw [List.take_left] at htk
        rw [List.take_append_eq_append_take] at htk
        rw [List.take_append_eq_append_take] at htk
        rw [List.take_of_length_le (l := u) (by omega)] at htk
        rw [List.length_append] at htk
        have hz2 : a.length - (u.length + q.length) = 0 := by omega
        rw [hz2, List.take_zero, List.append_nil] at htk
        exact htk
      · refine ⟨v, ?_⟩
        have hdr := congrArg (List.drop a.length) huv
        rw [List.drop_left] at hdr
        rw [List.drop_append_eq_append_drop] at hdr
        rw [List.drop_append_eq_append_drop] at hdr
        rw [List.drop_of_length_le (l := u) (by omega)] at hdr
        rw [List.nil_append, List.length_append] at hdr
        have hz2 : a.length - (u.length + q.length) = 0 := by omega
        rw [hz2, List.drop_zero] at hdr
        exact hdr


/-- Occurrences of a protected pattern `q` cannot appear in a join when no
segment contains one and the separator satisfies the boundary conditions. -/
theorem no_occ_joinSep {q new : List Char} {lc : Char}
    (hqne : q ≠ [])
    (hlast : new.getLast? = some lc)
    (hF1 : ¬ q <:+: new)
    (hF2 : lc ∉ q)
    (hF3 : ∀ k, 0 < k → k < q.length → ¬ q.drop k <+: new)
    (hF4 : ¬ new <:+: q) :
    ∀ ts : List (List Char), (∀ t ∈ ts, ¬ q <:+: t) → ¬ q <:+: joinSep new ts := by
  intro ts
  induction ts with
  | nil =>
    intro _ hq
    exact hqne ( List.infix_nil.mp hq)
  | cons t0 ts ih =>
    intro hfree
    cases ts with
    | nil => exact fun hq => hfree t0 (List.mem_cons_self _ _) hq
    | cons t2 ts2 =>
      intro hq
      rw [joinSep_pair, List.append_assoc] at hq
      have hR : ¬ q <:+: joinSep new (t2 :: ts2) :=
        ih (fun t ht => hfree t (List.mem_cons_of_mem _ ht))
      have hNR : ¬ q <:+: new ++ joinSep new (t2 :: ts2) := by
        intro hq2
        rcases infix_append_split hq2 with hA | hB | ⟨k, hk0, hkq, hksuf, hkpre⟩
        · exact hF1 hA
        · exact hR hB
        · have htlen : (q.take k).length = k := by
            rw [List.length_take]
            omega
          have htne : q.take k ≠ [] := by
            apply List.length_pos.mp
            omega
          have hnewne : new ≠ [] := List.IsSuffix.ne_nil hksuf htne
          have hglast := List.IsSuffix.getLast hksuf htne
          have hmem : (q.take k).getLast htne ∈ q :=
            List.take_subset k q (List.getLast_mem htne)
          have hlc : new.getLast hnewne = lc := by
            have h5 := List.getLast?_eq_getLast new hnewne
            rw [hlast] at h5
            exact (Option.some_inj.mp h5).symm
          rw [hglast] at hmem
          rw [hlc] at hmem
          exact hF2 hmem
      rcases infix_append_split hq with hA | hB | ⟨k, hk0, hkq, hksuf, hkpre⟩
      · exact hfree t0 (List.mem_cons_self _ _) hA
      · exact hNR hB
      · rcases le_or_lt (q.drop k).length new.length with hle | hgt
        · exact hF3 k hk0 hkq (prefix_of_append_le hkpre hle)
        · have hnp : new <+: q.drop k :=
            List.prefix_of_prefix_length_le ( List.prefix_append _ _) hkpre (le_of_lt hgt)
          exact hF4 (List.IsInfix.trans (List.IsPrefix.isInfix hnp)
            (List.IsSuffix.isInfix ( List.drop_suffix k q)))

/-- Output of pyReplace is free of a protected pattern when the input is
(or when the pattern is the one being replaced). -/
theorem no_occ_pyReplace {old new q : List Char} {lc : Char}
    (holdne : old ≠ []) (hqne : q ≠ [])
    (hlast : new.getLast? = some lc)
    (hF1 : ¬ q <:+: new)
    (hF2 : lc ∉ q)
    (hF3 : ∀ k, 0 < k → k < q.length → ¬ q.drop k <+: new)
    (hF4 : ¬ new <:+: q)
    (s : List Char) (hdisj : q = old ∨ ¬ q <:+: s) :
    ¬ q <:+: pyReplace old new s := by
  rw [pyReplace_eq_joinSep]
  apply no_occ_joinSep hqne hlast hF1 hF2 hF3 hF4
  intro t ht
  rcases hdisj with rfl | hfree
  · exact segs_no_occ holdne s t ht
  · exact fun hinf => hfree (List.IsInfix.trans hinf (segs_inf old s t ht))


set_option maxRecDepth 8000 in
theorem schema_conditions :
    ∀ p ∈ schemaReplacements, ∀ r ∈ schemaReplacements,
      patOf p ≠ [] ∧
      (repOf r).getLast? = some '}' ∧
      '}' ∉ patOf p ∧
      ¬ patOf p <:+: repOf r ∧
      (∀ k, k < (patOf p).length → 0 < k → ¬ (patOf p).drop k <+: repOf r) ∧
      ¬ repOf r <:+: patOf p := by decide

theorem foldl_free {q : List Char} (hq : q ∈ schemaReplacements.map patOf) :
    ∀ ps : List (List Char × List Char), (∀ p ∈ ps, p ∈ schemaReplacements) →
    ∀ c : List Char, (q ∈ ps.map patOf ∨ ¬ q <:+: c) →
    ¬ q <:+: ps.foldl (fun acc p => pyReplace (patOf p) (repOf p) acc) c := by
  obtain ⟨p0, hp0, hp0q⟩ := List.mem_map.mp hq
  intro ps
  induction ps with
  | nil =>
    intro _ c hd
    rcases hd with hmem | hfree
    · simp at hmem
    · simpa using hfree
  | cons p ps ih =>
    intro hsub c hd
    have hpmem : p ∈ schemaReplacements := hsub p (List.mem_cons_self _ _)
    obtain ⟨hpne, hlast, hnotin, hF1, hF3, hF4⟩ :=
      schema_conditions p0 hp0 p hpmem
    have holdne : patOf p ≠ [] := (schema_conditions p hpmem p hpmem).1
    have hqne : q ≠ [] := by rw [← hp0q]; exact hpne
    simp only [List.foldl_cons]
    apply ih (fun r hr => hsub r (List.mem_cons_of_mem _ hr))
    by_cases hqp : q = patOf p
    · right
      apply no_occ_pyReplace holdne hqne hlast (hp0q ▸ hF1) (hp0q ▸ hnotin)
        (fun k hk0 hklt => (hp0q ▸ hF3) k hklt hk0) (hp0q ▸ hF4) c (Or.inl hqp)
    · rcases hd with hmem | hfree
      · left
        simp only [List.map_cons, List.mem_cons] at hmem
        rcases hmem with h1 | h2
        · exact absurd h1 hqp
        · exact h2
      · right
        exact no_occ_pyReplace holdne hqne hlast (hp0q ▸ hF1) (hp0q ▸ hnotin)
          (fun k hk0 hklt => (hp0q ▸ hF3) k hklt hk0) (hp0q ▸ hF4) c (Or.inr hfree)

/-- After the full replacement loop, no pattern occurs in the content. -/
theorem fixContent_free (c : List Char) :
    ∀ q ∈ schemaReplacements.map patOf, ¬ q <:+: fixContent c := by
  intro q hq
  exact foldl_free hq schemaReplacements (fun p hp => hp) c (Or.inl hq)

theorem foldl_id :
    ∀ ps : List (List Char × List Char), ∀ c : List Char,
    (∀ p ∈ ps, ¬ patOf p <:+: c) →
    ps.foldl (fun acc p => pyReplace (patOf p) (repOf p) acc) c = c := by
  intro ps
  induction ps with
  | nil => intro c _; rfl
  | cons p ps ih =>
    intro c hfree
    simp only [List.foldl_cons]
    rw [pyReplace_id (repOf p) c (hfree p (List.mem_cons_self _ _))]
    exact ih c (fun r hr => hfree r (List.mem_cons_of_mem _ hr))

theorem expectLit_len {l s r : List Char} (h : expectLit l s = some r) :
    r.length ≤ s.length := by
  unfold expectLit at h
  split at h
  · cases h
    simp
  · cases h

theorem takeCl1_len {p : Char → Bool} {s g r : List Char}
    (h : takeCl1 p s = some (g, r)) : r.length ≤ s.length := by
  unfold takeCl1 at h
  split at h
  · cases h
  · cases h
    exact ( List.dropWhile_suffix p).length_le

theorem takeCl0_len (p : Char → Bool) (s : List Char) :
    (takeCl0 p s).2.length ≤ s.length :=
  ( List.dropWhile_suffix p).length_le

theorem skipWs_len (s : List Char) : (skipWs s).length ≤ s.length :=
  ( List.dropWhile_suffix isSpaceC).length_le

theorem matchToolTail_len {s : List Char} {m : ToolMatch}
    (h : matchToolTail s = some m) : m.rest.length ≤ s.length := by
  unfold matchToolTail at h
  cases h1 : expectLit "\"".data (skipWs s) with
  | none => simp only [h1] at h; cases h
  | some s1 =>
  simp only [h1] at h
  cases h2 : takeCl1 (fun c => c != '\"') s1 with
  | none => simp only [h2] at h; cases h
  | some pr2 =>
  obtain ⟨g1, s2⟩ := pr2
  simp only [h2] at h
  cases h3 : expectLit "\",".data s2 with
  | none => simp only [h3] at h; cases h
  | some s3 =>
  simp only [h3] at h
  cases h4 : expectLit "\"".data (skipWs s3) with
  | none => simp only [h4] at h; cases h
  | some s5 =>
  simp only [h4] at h
  cases h5 : takeCl1 (fun c => c != '\"') s5 with
  | none => simp only [h5] at h; cases h
  | some pr5 =>
  obtain ⟨g2, s6⟩ := pr5
  simp only [h5] at h
  cases h6 : expectLit "\",".data s6 with
  | none => simp only [h6] at h; cases h
  | some s7 =>
  simp only [h6] at h
  cases h7 : expectLit "\x7b".data (skipWs s7) with
  | none => simp only [h7] at h; cases h
  | some s9 =>
  simp only [h7] at h
  cases h8 : takeCl1 (fun c => c != '}') s9 with
  | none => simp only [h8] at h; cases h
  | some pr8 =>
  obtain ⟨g3, s10⟩ := pr8
  simp only [h8] at h
  cases h9 : expectLit "\x7d,".data s10 with
  | none => simp only [h9] at h; cases h
  | some s11 =>
  simp only [h9] at h
  cases h10 : expectLit "async".data (skipWs s11) with
  | none => simp only [h10] at h; cases h
  | some s13 =>
  simp only [h10] at h
  cases h11 : expectLit "(".data (skipWs s13) with
  | none => simp only [h11] at h; cases h
  | some s15 =>
  simp only [h11] at h
  cases h12 : expectLit ")".data (takeCl0 (fun c => c != ')') s15).2 with
  | none => simp only [h12] at h; cases h
  | some s17 =>
  simp only [h12] at h
  cases h13 : expectLit "=>".data (skipWs s17) with
  | none => simp only [h13] at h; cases h
  | some s19 =>
  simp only [h13] at h
  cases h14 : expectLit "\x7b".data (skipWs s19) with
  | none => simp only [h14] at h; cases h
  | some s21 =>
  simp only [h14] at h
  cases h
  have l1 : (s1).length ≤ ((skipWs s)).length := expectLit_len h1
  have l2 : (s2).length ≤ (s1).length := takeCl1_len h2
  have l3 : (s3).length ≤ (s2).length := expectLit_len h3
  have l4 : (s5).length ≤ ((skipWs s3)).length := expectLit_len h4
  have l5 : (s6).length ≤ (s5).length := takeCl1_len h5
  have l6 : (s7).length ≤ (s6).length := expectLit_len h6
  have l7 : (s9).length ≤ ((skipWs s7)).length := expectLit_len h7
  have l8 : (s10).length ≤ (s9).length := takeCl1_len h8
  have l9 : (s11).length ≤ (s10).length := expectLit_len h9
  have l10 : (s13).length ≤ ((skipWs s11)).length := expectLit_len h10
  have l11 : (s15).length ≤ ((skipWs s13)).length := expectLit_len h11
  have l12 : (s17).length ≤ ((takeCl0 (fun c => c != ')') s15).2).length := expectLit_len h12
  have l13 : (s19).length ≤ ((skipWs s17)).length := expectLit_len h13
  have l14 : (s21).length ≤ ((skipWs s19)).length := expectLit_len h14
  have w1 : (skipWs s).length ≤ s.length := skipWs_len _
  have w2 : (skipWs s3).length ≤ s3.length := skipWs_len _
  have w3 : (skipWs s7).length ≤ s7.length := skipWs_len _
  have w4 : (skipWs s11).length ≤ s11.length := skipWs_len _
  have w5 : (skipWs s13).length ≤ s13.length := skipWs_len _
  have w6 : (takeCl0 (fun c => c != ')') s15).2.length ≤ s15.length := takeCl0_len _ _
  have w7 : (skipWs s17).length ≤ s17.length := skipWs_len _
  have w8 : (skipWs s19).length ≤ s19.length := skipWs_len _
  simp only [ToolMatch.rest] at *
  omega

/-- The full tool pattern of fix-tools.py at the current position.  Every
repetition of the source regex ranges over a character class that excludes
the literal that follows it, so the pattern has at most one match at a
position: the maximal-munch one implemented here. -/
theorem matchToolAt_len {s : List Char} {m : ToolMatch}
    (h : matchToolAt s = some m) : m.rest.length < s.length := by
  unfold matchToolAt at h
  cases h0 : expectLit "server.tool(".data s with
  | none => simp only [h0] at h; cases h
  | some s1 =>
    simp only [h0] at h
    have hlt : s1.length < s.length := by
      unfold expectLit at h0
      split at h0
      · cases h0
        rename_i hp
        have hle : ("server.tool(".data).length ≤ s.length :=
          ( List.isPrefixOf_iff_prefix.mp hp).length_le
        simp only [List.length_drop]
        simp at hle ⊢
        omega
      · cases h0
    exact lt_of_le_of_lt (matchToolTail_len h) hlt

/-- convert_schema_format from fix-tools.py: returns the constant TODO
placeholder, ignoring the old schema (exactly as the source does). -/

theorem convertToolFuel_nil (fuel : Nat) : convertToolFuel fuel [] = [] := by
  cases fuel <;> rfl

theorem convertToolFuel_irrel : ∀ f1 f2 : Nat, ∀ s : List Char,
    s.length ≤ f1 → s.length ≤ f2 →
    convertToolFuel f1 s = convertToolFuel f2 s := by
  intro f1
  induction f1 with
  | zero =>
    intro f2 s h1 _
    have hz : s = [] := List.eq_nil_of_length_eq_zero (Nat.le_zero.mp h1)
    subst hz
    rw [convertToolFuel_nil, convertToolFuel_nil]
  | succ f1 ih =>
    intro f2 s h1 h2
    cases s with
    | nil => rw [convertToolFuel_nil, convertToolFuel_nil]
    | cons c rest =>
      cases f2 with
      | zero => simp at h2
      | succ f2 =>
        simp only [convertToolFuel]
        cases hm : matchToolAt (c :: rest) with
        | some m =>
          have hlt := matchToolAt_len hm
          simp only [List.length_cons] at hlt h1 h2
          simp only [hm]
          rw [ih f2 m.rest (by omega) (by omega)]
        | none =>
          simp only [List.length_cons] at h1 h2
          simp only [hm]
          rw [ih f2 rest (by omega) (by omega)]

theorem convertTool_nil : convert_tool_to_register_tool [] = [] := rfl

theorem convertTool_match {c : Char} {rest : List Char} {m : ToolMatch}
    (hm : matchToolAt (c :: rest) = some m) :
    convert_tool_to_register_tool (c :: rest) =
      replace_tool m.toolName m.descr m.oldSchema m.params ++
        convert_tool_to_register_tool m.rest := by
  have hlt := matchToolAt_len hm
  simp only [List.length_cons] at hlt
  show convertToolFuel (c :: rest).length (c :: rest) = _
  simp only [List.length_cons, convertToolFuel, hm]
  unfold convert_tool_to_register_tool
  rw [convertToolFuel_irrel rest.length m.rest.length m.rest (by omega) (le_refl _)]

theorem convertTool_skip {c : Char} {rest : List Char}
    (hm : matchToolAt (c :: rest) = none) :
    convert_tool_to_register_tool (c :: rest) =
      c :: convert_tool_to_register_tool rest := by
  show convertToolFuel (c :: rest).length (c :: rest) = _
  simp only [List.length_cons, convertToolFuel, hm]
  unfold convert_tool_to_register_tool
  rfl

theorem convertTool_id : ∀ s : List Char, hasToolMatch s = false →
    convert_tool_to_register_tool s = s := by
  intro s
  induction s with
  | nil => intro _; exact convertTool_nil
  | cons c rest ih =>
    intro h
    unfold hasToolMatch at h
    rw [Bool.or_eq_false_iff] at h
    have hm : matchToolAt (c :: rest) = none :=
      Option.not_isSome_iff_eq_none.mp (by simp [h.1])
    rw [convertTool_skip hm, ih h.2]


theorem patOf_ne_nil (p : List Char × List Char) : patOf p ≠ [] := by
  unfold patOf
  exact List.append_ne_nil_of_left_ne_nil (by decide) p.1

/-- C7: each rewrite script reads one file, applies its transformation, and
writes or prints the result.  fix-inline-schemas.py reads server.js, runs the
nine-entry replacement loop (each pass replaces every occurrence of the
pattern, interleaving the replacement between the unchanged non-matching
segments whose join is the original content), writes the result back and
prints the confirmation; fix-tools.py, invoked with one filepath, reads that
file, applies the regex conversion, and writes the result back. -/
theorem C7_scripts (c f : List Char) (fp : String) :
    fixInlineSchemasRun c =
      [FileOp.readF "server.js", FileOp.writeF "server.js" (fixContent c),
       FileOp.printLn "Fixed all schema references to use inline definitions"] ∧
    (∀ p ∈ schemaReplacements,
      pyReplace (patOf p) (repOf p) c = joinSep (repOf p) (segs (patOf p) c) ∧
      joinSep (patOf p) (segs (patOf p) c) = c ∧
      ∀ t ∈ segs (patOf p) c, ¬ patOf p <:+: t) ∧
    fixContent c =
      schemaReplacements.foldl (fun acc p => pyReplace (patOf p) (repOf p) acc) c ∧
    fixToolsMain ["fix-tools.py", fp] f =
      (0, [FileOp.readF fp,
           FileOp.writeF fp (convert_tool_to_register_tool f),
           FileOp.printLn "Tool conversion completed!"]) := by
  refine ⟨rfl, ?_, rfl, rfl⟩
  intro p _
  exact ⟨pyReplace_eq_joinSep (patOf p) (repOf p) c, joinSep_segs (patOf p) c,
         segs_no_occ (patOf_ne_nil p) c⟩

/-- Witness for C7: the decomposition equations instantiated at the first
table entry on the empty content. -/
theorem C7_scripts_witness :
    pyReplace (patOf schemaReplacements.headI) (repOf schemaReplacements.headI) [] =
      joinSep (repOf schemaReplacements.headI)
        (segs (patOf schemaReplacements.headI) []) ∧
    fixToolsMain ["fix-tools.py", "server.js"] [] =
      (0, [FileOp.readF "server.js",
           FileOp.writeF "server.js" (convert_tool_to_register_tool []),
           FileOp.printLn "Tool conversion completed!"]) :=
  ⟨((C7_scripts [] [] "server.js").2.1 schemaReplacements.headI (by decide)).1,
   (C7_scripts [] [] "server.js").2.2.2⟩

/-- C8: the replacement pass of fix-inline-schemas.py is idempotent: running
the full nine-entry loop twice produces the same string as running it
once, for every input content. -/
theorem C8_idempotent (c : List Char) :
    fixContent (fixContent c) = fixContent c := by
  show schemaReplacements.foldl _ (fixContent c) = fixContent c
  apply foldl_id
  intro p hp
  exact fixContent_free c (patOf p) (List.mem_map_of_mem _ hp)

/-- C9: convert_tool_to_register_tool rewrites each match of the tool
pattern into a registerTool call that keeps the captured name and
description verbatim but uses constant TODO placeholders for the schema and
the parameter list, independently of the captured schema and parameters;
text outside matches is kept, and an input with no match anywhere is
returned exactly as given. -/
theorem C9_convert_tool (s : List Char) :
    (hasToolMatch s = false → convert_tool_to_register_tool s = s) ∧
    (∀ (c : Char) (rest : List Char) (m : ToolMatch),
      matchToolAt (c :: rest) = some m →
      convert_tool_to_register_tool (c :: rest) =
        replace_tool m.toolName m.descr m.oldSchema m.params ++
          convert_tool_to_register_tool m.rest) ∧
    (∀ (c : Char) (rest : List Char), matchToolAt (c :: rest) = none →
      convert_tool_to_register_tool (c :: rest) =
        c :: convert_tool_to_register_tool rest) ∧
    (∀ g3 : List Char, convert_schema_format g3 =
      "    // TODO: Define proper Zod schemas here".data) ∧
    (∀ g4 g3 : List Char, convert_params_format g4 g3 =
      "/* TODO: Add destructured parameters */".data) ∧
    (∀ g1 g2 g3 g4 g3x g4x : List Char,
      replace_tool g1 g2 g3 g4 = replace_tool g1 g2 g3x g4x) ∧
    (∀ g1 g2 g3 g4 : List Char,
      replace_tool g1 g2 g3 g4 =
        "server.registerTool(\"".data ++ g1 ++
        "\", \x7b\n  description: \"".data ++ g2 ++
        ("\",\n  inputSchema: \x7b\n".data ++
         "    // TODO: Define proper Zod schemas here".data ++
         "\n  \x7d\n\x7d, async (".data ++
         "/* TODO: Add destructured parameters */".data ++
         ") => \x7b".data)) := by
  refine ⟨convertTool_id s, ?_, ?_, fun _ => rfl, fun _ _ => rfl, fun _ _ _ _ _ _ => rfl, ?_⟩
  · intro c rest m hm
    exact convertTool_match hm
  · intro c rest hm
    exact convertTool_skip hm
  · intro g1 g2 g3 g4
    unfold replace_tool convert_schema_format convert_params_format
    simp [List.append_assoc]

/-- Witness for C9: a non-matching input is returned as given, and concrete
server.tool calls are rewritten with their name and description; the second
call separates its fields with U+00A0 non-breaking spaces, which the
pattern compiled without re.ASCII treats as whitespace. -/
theorem C9_convert_tool_witness :
    convert_tool_to_register_tool "hello".data = "hello".data ∧
    convert_tool_to_register_tool
        ("server.tool(\"a\", \"b\", \x7bx\x7d, async (p) => \x7b".data) =
      replace_tool "a".data "b".data "x".data "p".data ++
        convert_tool_to_register_tool [] ∧
    convert_tool_to_register_tool
        ("server.tool(\u00A0\"a\",\u00A0\"b\",\u00A0\x7bx\x7d,\u00A0async\u00A0(p)\u00A0=>\u00A0\x7b".data) =
      replace_tool "a".data "b".data "x".data "p".data ++
        convert_tool_to_register_tool [] :=
  ⟨(C9_convert_tool "hello".data).1 (by decide),
   (C9_convert_tool []).2.1 's' "erver.tool(\"a\", \"b\", \x7bx\x7d, async (p) => \x7b".data
     ⟨"a".data, "b".data, "x".data, "p".data, []⟩ (by decide),
   (C9_convert_tool []).2.1 's'
     "erver.tool(\u00A0\"a\",\u00A0\"b\",\u00A0\x7bx\x7d,\u00A0async\u00A0(p)\u00A0=>\u00A0\x7b".data
     ⟨"a".data, "b".data, "x".data, "p".data, []⟩ (by decide)⟩

/-- C10: invoked with a number of command-line arguments other than exactly
one filepath, fix-tools.py prints the usage line and exits with status 1,
performing no file read or write, so the filesystem is unchanged. -/
theorem C10_argv_guard (argv : List String) (content : List Char)
    (h : argv.length ≠ 2) :
    fixToolsMain argv content = (1, [FileOp.printLn usageMsg]) ∧
    (∀ p : String, FileOp.readF p ∉ (fixToolsMain argv content).2) ∧
    (∀ (p : String) (d : List Char),
      FileOp.writeF p d ∉ (fixToolsMain argv content).2) := by
  have heq : fixToolsMain argv content = (1, [FileOp.printLn usageMsg]) := by
    unfold fixToolsMain
    match argv with
    | [] => rfl
    | [a] => rfl
    | [a, b] => simp at h
    | a :: b :: x :: r => rfl
  refine ⟨heq, ?_, ?_⟩
  · intro p
    rw [heq]
    simp
  · intro p d
    rw [heq]
    simp

/-- Witness for C10: running with no file argument only prints usage. -/
theorem C10_argv_guard_witness :
    fixToolsMain ["fix-tools.py"] [] = (1, [FileOp.printLn usageMsg]) :=
  (C10_argv_guard ["fix-tools.py"] [] (by decide)).1

end CrawlForge
